import Mathlib

/-! # Verification of the okppt SVG-to-PPTX server core

Shallow embedding of the repository's core logic:
* unit conversion, `src/mcp-server-svg2pptx/converters.py` (class `UnitConverter`);
* filename sanitizing and slide tools, `src/mcp-server-svg2pptx/main.py`;
* slide auto-extension, `src/svg_module.py`.

Real numbers of the Python code are modelled as exact rationals; Python's
`int()` truncation toward zero is modelled by `ratTrunc`.
-/

namespace SvgPptx

/-- EMU conversion constant, converters.py line 7. -/
def EMU_PER_INCH : Int := 914400

/-- converters.py line 8. -/
def EMU_PER_CM : Int := 360000

/-- converters.py line 9. -/
def EMU_PER_PT : Int := 12700

/-- converters.py line 10. -/
def EMU_PER_MM : Int := 36000

/-- converters.py line 11. -/
def EMU_PER_PX : Int := 9525

/-- Python `int()` applied to a rational: truncation toward zero. -/
def ratTrunc (q : ℚ) : Int := if 0 ≤ q then ⌊q⌋ else ⌈q⌉

/-- Characters accepted by the regex character class of digits and dot. -/
def isNumChar (c : Char) : Bool := c.isDigit || c = '.'

/-- Value denoted by a list of decimal digit characters. -/
def digitsToNat (cs : List Char) : Nat :=
  cs.foldl (fun a c => 10 * a + (c.toNat - 48)) 0

/-- Shape accepted by Python `float()` on the text matched by the numeric
group of the regex: an integer part, optionally a dot and a fractional part,
with at least one digit overall and no second dot.  Returns the two digit
blocks. -/
def decShape (cs : List Char) : Option (List Char × List Char) :=
  let ip := cs.takeWhile Char.isDigit
  match cs.dropWhile Char.isDigit with
  | [] => if cs.isEmpty then none else some (ip, [])
  | '.' :: frac =>
      if frac.all Char.isDigit ∧ (ip ≠ [] ∨ frac ≠ []) then some (ip, frac) else none
  | _ => none

/-- Rational value of a decimal literal split into digit blocks. -/
def decVal (ip fp : List Char) : ℚ :=
  (digitsToNat ip : ℚ) + (digitsToNat fp : ℚ) / (10 : ℚ) ^ fp.length

/-- Rational value including the optional leading minus sign. -/
def signedVal (neg : Bool) (ip fp : List Char) : ℚ :=
  if neg then -decVal ip fp else decVal ip fp

/-- The optional leading minus sign of the numeric group of the regex. -/
def splitSign (cs : List Char) : Bool × List Char :=
  match cs with
  | c :: rest => if c = '-' then (true, rest) else (false, c :: rest)
  | [] => (false, [])

/-- Python `value.strip` of the percent sign: removes it from both ends. -/
def stripPercent (cs : List Char) : List Char :=
  ((cs.dropWhile (· = '%')).reverse.dropWhile (· = '%')).reverse

/-- The recognized unit suffixes of converters.py. -/
inductive LenUnit | pt | inch | cm | mm | px
deriving DecidableEq

/-- The exact EMU-per-unit constant used for each suffix. -/
def emuPer : LenUnit → Int
  | .pt => EMU_PER_PT
  | .inch => EMU_PER_INCH
  | .cm => EMU_PER_CM
  | .mm => EMU_PER_MM
  | .px => EMU_PER_PX

/-- The unit branches of `to_emu`, converters.py lines 67-76: each returns
`int(number * CONST)`. -/
def to_emu_num (number : ℚ) : LenUnit → Int
  | .pt => ratTrunc (number * (EMU_PER_PT : ℚ))
  | .inch => ratTrunc (number * (EMU_PER_INCH : ℚ))
  | .cm => ratTrunc (number * (EMU_PER_CM : ℚ))
  | .mm => ratTrunc (number * (EMU_PER_MM : ℚ))
  | .px => ratTrunc (number * (EMU_PER_PX : ℚ))

/-- The ValueError raised for a malformed expression, and the one raised for
an unrecognized unit suffix (the spec calls them InvalidExpression and
UnsupportedUnit). -/
inductive ConvErr | invalidExpression | unsupportedUnit
deriving DecidableEq

/-- The scanning phase of `UnitConverter.to_emu` on a string: which branch of
converters.py lines 44-78 fires, and with which digit blocks.  Mirrors the
percentage guard (trailing percent sign AND a present `total`), the regex
match of an optional sign, then digits and dots, then an optional run of
letters, and the unit dispatch after lowercasing. -/
inductive ScanRes
  | percent (neg : Bool) (ip fp : List Char)
  | bare (neg : Bool) (ip fp : List Char)
  | withUnit (neg : Bool) (ip fp : List Char) (u : LenUnit)
  | badUnit
  | malformed
deriving DecidableEq

/-- Branch selection of `UnitConverter.to_emu`, converters.py lines 44-78.
`hasTotal` records whether the `total` argument is present. -/
def scanLen (cs : List Char) (hasTotal : Bool) : ScanRes :=
  if hasTotal ∧ cs.getLast? = some '%' then
    let p := splitSign (stripPercent cs)
    match decShape p.2 with
    | some ipfp => .percent p.1 ipfp.1 ipfp.2
    | none => .malformed
  else
    let p := splitSign cs
    let numPart := p.2.takeWhile isNumChar
    if numPart.isEmpty then .malformed
    else
      match decShape numPart with
      | none => .malformed
      | some ipfp =>
          let unitChars := ((p.2.dropWhile isNumChar).takeWhile Char.isAlpha).map Char.toLower
          if unitChars.isEmpty then .bare p.1 ipfp.1 ipfp.2
          else if unitChars = [ 'p', 't' ] then .withUnit p.1 ipfp.1 ipfp.2 .pt
          else if unitChars = [ 'i', 'n', 'c', 'h' ] ∨ unitChars = [ 'i', 'n' ] then
            .withUnit p.1 ipfp.1 ipfp.2 .inch
          else if unitChars = [ 'c', 'm' ] then .withUnit p.1 ipfp.1 ipfp.2 .cm
          else if unitChars = [ 'm', 'm' ] then .withUnit p.1 ipfp.1 ipfp.2 .mm
          else if unitChars = [ 'p', 'x' ] then .withUnit p.1 ipfp.1 ipfp.2 .px
          else .badUnit

/-- `UnitConverter.to_emu`, converters.py lines 44-78, restricted to string
input, over exact rationals: the percentage branch computes
`int(float(stripped) / 100 * total)`; a bare number is assumed EMU and
truncated; a recognized suffix dispatches to its `int(number * CONST)`
branch; an unrecognized suffix or a malformed expression raises. -/
def to_emu (value : String) (total : Option ℚ) : Except ConvErr Int :=
  match scanLen value.data total.isSome, total with
  | .percent neg ip fp, some t => .ok (ratTrunc (signedVal neg ip fp / 100 * t))
  | .percent _ _ _, none => .error .invalidExpression
  | .bare neg ip fp, _ => .ok (ratTrunc (signedVal neg ip fp))
  | .withUnit neg ip fp u, _ => .ok (to_emu_num (signedVal neg ip fp) u)
  | .badUnit, _ => .error .unsupportedUnit
  | .malformed, _ => .error .invalidExpression

/-- `UnitConverter.emu_to_px`, converters.py lines 300-302. -/
def emu_to_px (emu : ℚ) : ℚ := emu / 9525

/-- `UnitConverter.px_to_emu`, converters.py lines 295-297. -/
def px_to_emu (px : ℚ) : ℚ := px * 9525

/-- The Unit Projector of spec section 4.2: re-express a canonical EMU value
in a display unit by dividing by the exact per-unit constant.  Realized in
the code for pixels by `emu_to_px`; the other units follow the same
exact-constant contract as the converters.py helper pairs. -/
def project (emu : ℚ) (u : LenUnit) : ℚ := emu / (emuPer u : ℚ)

instance {ε α : Type} [DecidableEq ε] [DecidableEq α] : DecidableEq (Except ε α) := fun a b =>
  match a, b with
  | .ok x, .ok y => decidable_of_iff (x = y) (by simp)
  | .error e, .error f => decidable_of_iff (e = f) (by simp)
  | .ok _, .error _ => isFalse (by simp)
  | .error _, .ok _ => isFalse (by simp)

/-! ## Filename sanitizer, main.py lines 31-80

`cleanup_filename` applies `re.sub` with the pattern: underscore, one of the
operation tags svg / deleted / inserted / output, underscore, eight digits,
underscore, six digits; then collapses runs of two or more underscores into
one, then strips trailing underscores.  `get_default_output_path` cleans the
base name and appends an underscore, the operation tag, an underscore and
the strftime timestamp (eight date digits, underscore, six time digits). -/
/-- The four operation tags of the cleanup pattern, main.py line 43. -/
def tagWords : List (List Char) :=
  [ [ 's', 'v', 'g' ], [ 'd', 'e', 'l', 'e', 't', 'e', 'd' ],
    [ 'i', 'n', 's', 'e', 'r', 't', 'e', 'd' ],
    [ 'o', 'u', 't', 'p', 'u', 't' ] ]

/-- Match a literal word at the head, returning what follows it. -/
def dropExact : List Char → List Char → Option (List Char)
  | [], cs => some cs
  | _ :: _, [] => none
  | w :: ws, c :: cs => if c = w then dropExact ws cs else none

/-- Match exactly n digit characters, returning what follows them. -/
def matchDigits : Nat → List Char → Option (List Char)
  | 0, cs => some cs
  | _ + 1, [] => none
  | n + 1, c :: cs => if c.isDigit then matchDigits n cs else none

/-- The tail of the pattern after the eight date digits: an underscore and
six digits. -/
def matchTail2 (r3 : List Char) : Option (List Char) :=
  match r3 with
  | c2 :: r4 => if c2 = '_' then matchDigits 6 r4 else none
  | [] => none

/-- The tail of the pattern after the operation tag: an underscore, eight
digits, then `matchTail2`. -/
def matchTail1 (r1 : List Char) : Option (List Char) :=
  match r1 with
  | c1 :: r2 => if c1 = '_' then (matchDigits 8 r2).bind matchTail2 else none
  | [] => none

/-- Try the pattern of main.py line 43 at the head of the list: an
underscore, one of the four operation tags (alternatives tried in order), an
underscore, eight digits, an underscore, six digits.  Returns what follows
the match. -/
def matchTagAt (cs : List Char) : Option (List Char) :=
  match cs with
  | c :: rest =>
      if c = '_' then tagWords.findSome? fun w => (dropExact w rest).bind matchTail1
      else none
  | [] => none

/-- One pass of `re.sub` with the tag pattern (main.py line 44): scan left
to right, remove each leftmost non-overlapping match, and continue after the
removed match without rescanning the glued text.  `fuel` bounds the
recursion and is spent at least one character at a time, so the input length
suffices. -/
def stripTagsF : Nat → List Char → List Char
  | 0, cs => cs
  | _ + 1, [] => []
  | fuel + 1, c :: cs =>
      match matchTagAt (c :: cs) with
      | some r => stripTagsF fuel r
      | none => c :: stripTagsF fuel cs

/-- The `re.sub` removing tag-timestamp markers, main.py line 44. -/
def stripTags (cs : List Char) : List Char := stripTagsF cs.length cs

/-- One pass of `re.sub` collapsing each run of two or more underscores into
one (main.py line 47): drop an underscore whose previously kept character
was an underscore. -/
def collapseUSAux : Bool → List Char → List Char
  | _, [] => []
  | prevUS, c :: cs =>
      if c = '_' then
        if prevUS then collapseUSAux true cs else '_' :: collapseUSAux true cs
      else c :: collapseUSAux false cs

/-- The underscore-collapsing substitution, main.py line 47. -/
def collapseUS (cs : List Char) : List Char := collapseUSAux false cs

/-- Python rstrip of underscores, main.py line 50. -/
def rstripUS (cs : List Char) : List Char :=
  (cs.reverse.dropWhile (· = '_')).reverse

/-- `cleanup_filename`, main.py lines 31-52, on character lists. -/
def cleanupChars (cs : List Char) : List Char := rstripUS (collapseUS (stripTags cs))

/-- `cleanup_filename`, main.py lines 31-52. -/
def cleanup_filename (s : String) : String := String.mk (cleanupChars s.data)

/-- The name-building step of `get_default_output_path`, main.py lines
72-76, with a base name given and an operation type set: clean the base
name, then append an underscore, the operation tag, an underscore and the
timestamp (eight date digits, an underscore, six time digits). -/
def synthesizeName (base tag date time : List Char) : List Char :=
  cleanupChars base ++ '_' :: (tag ++ '_' :: (date ++ '_' :: time))

/-- True when the list has no two adjacent underscores. -/
def noDoubleUS : List Char → Bool
  | [] => true
  | [_] => true
  | c :: d :: rest => (!(c == '_' && d == '_')) && noDoubleUS (d :: rest)

/-! ## Lemmas for the double-underscore and trailing-underscore invariant -/
/-- True when the head is not an underscore (or the list is empty). -/
def headNotUS (l : List Char) : Bool := !(l.head? == some '_')

/-! ## Slide collection operations

`delete_slide` and `insert_blank_slide` (main.py) act on the ordered slide
list of one document; the auto-extension block (svg_module.py) pads the list
with blank slides.  The list of slide identifiers is modelled directly; file
loading and saving around the list operation are not part of these claims.
-/
/-- The list mutation of `delete_slide`, main.py lines 610-624: check
1 <= slide_number <= slide count, then remove the entry at the zero-based
index. -/
def delete_slide {α : Type} (l : List α) (slide_number : Nat) : Except String (List α) :=
  if 1 ≤ slide_number ∧ slide_number ≤ l.length then
    .ok (l.eraseIdx (slide_number - 1))
  else .error "slide number out of range"

/-- The list mutation of `insert_blank_slide`, main.py lines 734-758: check
1 <= slide_number <= count + 1; append the new slide at the end; when the
target position is not the end, remove the just-appended last entry and
insert it at the zero-based target index. -/
def insert_blank_slide {α : Type} (l : List α) (slide_number : Nat) (s : α) :
    Except String (List α) :=
  if 1 ≤ slide_number ∧ slide_number ≤ l.length + 1 then
    let slides := l ++ [s]
    let idx := slide_number - 1
    if idx < l.length then .ok (slides.dropLast.insertIdx idx s)
    else .ok slides
  else .error "slide position out of range"

/-- The slide auto-extension block, svg_module.py lines 1-32: if the target
slide number exceeds the current count, append blank slides until the count
equals it; otherwise, if the document has no slides at all, append one blank
slide; otherwise leave the collection unchanged. -/
def ensure_slide_count {α : Type} (slide_number : Int) (l : List α) (blank : α) : List α :=
  if (l.length : Int) < slide_number then
    l ++ List.replicate (slide_number - l.length).toNat blank
  else if l.length = 0 then l ++ [blank]
  else l

/-! ## Batch insertion pipeline, main.py lines 184-251

The filesystem is a map from path to document; a document is the ordered
list of its slides, each slide carrying the graphics placed on it.  The body
of `insert_svg_to_pptx` is only partially present in the repository: its
slide auto-extension and recreate-on-unreadable blocks are src/svg_module.py;
opening, placement and saving are modelled from the spec (sections 4.4 and
6), as is the success of filesystem writes and removals. -/
/-- A document: the ordered slides, each carrying its placed graphics. -/
structure Doc where
  slides : List (List String)
deriving DecidableEq

/-- The blank slide produced by the blank layout. -/
def blankSlide : List String := []

/-- The filesystem: which document, if any, each path holds. -/
def FS : Type := String → Option Doc

/-- Write a document at a path. -/
def fsSet (fs : FS) (p : String) (d : Doc) : FS :=
  fun q => if q = p then some d else fs q

/-- Remove the file at a path. -/
def fsRemove (fs : FS) (p : String) : FS :=
  fun q => if q = p then none else fs q

/-- Place a graphic on the slide at a one-based index after the
auto-extension of svg_module.py lines 1-24.  Modelled from the spec: the
placement step of `insert_svg_to_pptx` is not under src/; per spec section
4.4 it puts the graphic onto the slide at `slide_number`. -/
def placeSvg (d : Doc) (svg : String) (slideNumber : Nat) : Doc :=
  let slides := ensure_slide_count (slideNumber : Int) d.slides blankSlide
  ⟨slides.set (slideNumber - 1) (slides.getD (slideNumber - 1) blankSlide ++ [svg])⟩

/-- Modelled from the spec: the body of `insert_svg_to_pptx` is not under
src/ except the blocks in svg_module.py.  Open the document at `pptxPath`;
when it is missing or unreadable, recreate a fresh document holding
`slideNumber` blank slides (svg_module.py lines 37-56); place the graphic;
save the result to `outputPath` (spec section 4.4 step 4). -/
def insert_svg_to_pptx (fs : FS) (pptxPath svgPath : String) (slideNumber : Nat)
    (outputPath : String) : Bool × FS :=
  let doc := (fs pptxPath).getD ⟨List.replicate slideNumber blankSlide⟩
  (true, fsSet fs outputPath (placeSvg doc svgPath slideNumber))

/-- `process_single_svg`, main.py lines 255-330: an SVG that does not exist
with auto-creation disabled is reported as a failure before anything is
written; otherwise the insertion runs (a missing SVG is first created when
auto-creation is on).  Each SVG is its path paired with whether the file
exists. -/
def process_single_svg (fs : FS) (pptxPath : String) (svg : String × Bool)
    (slideNumber : Nat) (outputPath : String) (createIfNotExists : Bool) : Bool × FS :=
  if !svg.2 && !createIfNotExists then (false, fs)
  else insert_svg_to_pptx fs pptxPath svg.1 slideNumber outputPath

/-- Scratch snapshot path of step i, main.py line 205. -/
def tempPath (tempBase : String) (i : Nat) : String :=
  tempBase ++ "_step_" ++ toString i ++ ".pptx"

/-- Per-step record: the input path the step read, the output path it was
given, and whether it succeeded. -/
structure StepOutcome where
  inputPath : String
  outPath : String
  ok : Bool
deriving DecidableEq

/-- The batch loop of `insert_svg`, main.py lines 196-236: each non-final
step writes to its scratch snapshot path, and the input pointer is then set
to that path whether or not the step succeeded (line 217); the final step
writes to the final output.  `i` is the running index. -/
def runBatchAux (createIfNotExists : Bool) (tempBase outputFinal : String)
    (slideStart : Nat) : FS → String → Nat → List (String × Bool) → FS × List StepOutcome
  | fs, _, _, [] => (fs, [])
  | fs, currentInput, i, svg :: rest =>
      let outPath := if rest.isEmpty then outputFinal else tempPath tempBase i
      let r := process_single_svg fs currentInput svg (slideStart + i) outPath createIfNotExists
      let nextInput := if rest.isEmpty then currentInput else outPath
      let k := runBatchAux createIfNotExists tempBase outputFinal slideStart r.2 nextInput
        (i + 1) rest
      (k.1, ⟨currentInput, outPath, r.1⟩ :: k.2)

/-- The scratch cleanup loop of `insert_svg`, main.py lines 239-245: remove
the scratch snapshots of steps 0..n-1 (called with n = item count - 1). -/
def removeTemps (tempBase : String) : FS → Nat → FS
  | fs, 0 => fs
  | fs, n + 1 => fsRemove (removeTemps tempBase fs n) (tempPath tempBase n)

/-- The list branch of `insert_svg`, main.py lines 184-251: the final output
is the explicit output path, or the input document path when none was given
(line 220); run the steps from the input document, then delete every scratch
snapshot. -/
def insert_svg_batch (fs : FS) (pptxPath : String) (svgs : List (String × Bool))
    (slideStart : Nat) (outputPath tempBase : String) (createIfNotExists : Bool) :
    FS × List StepOutcome :=
  let outputFinal := if outputPath = "" then pptxPath else outputPath
  let r := runBatchAux createIfNotExists tempBase outputFinal slideStart fs pptxPath 0 svgs
  (removeTemps tempBase r.1 (svgs.length - 1), r.2)

/-- Starting filesystem of the C2 counterexample: one document at in.pptx
with a single blank slide. -/
def fs0 : FS := fun p => if p = "in.pptx" then some ⟨[ [] ]⟩ else none

/-! ## Output-path defaulting, main.py lines 126-137 and 255-330 -/
/-- Characters of the path component after the last slash
(os.path.basename). -/
def baseNameChars (p : List Char) : List Char :=
  (p.reverse.takeWhile (· ≠ '/')).reverse

/-- The stem before the last extension (os.path.splitext on a file name):
leading dots do not start an extension. -/
def splitextStem (name : List Char) : List Char :=
  let lead := name.takeWhile (· = '.')
  let rest := name.dropWhile (· = '.')
  if rest.contains '.' then
    lead ++ ((rest.reverse.dropWhile (· ≠ '.')).drop 1).reverse
  else name

/-- The default output path computed by `insert_svg` when no output path is
given, main.py lines 131-137: a file named from the cleaned base name, the
marker svg and the timestamp, inside the standard output directory
(get_output_dir(), main.py lines 25-29: the directory `output` under the
server's base directory). -/
def default_output_path (baseDir ts pptxPath : String) : String :=
  String.mk (baseDir.data ++ "/output/".data ++
    cleanupChars (splitextStem (baseNameChars pptxPath.data)) ++
    "_svg_".data ++ ts.data ++ ".pptx".data)

/-- The single-item branch of `insert_svg` (main.py lines 126-183) followed
by `process_single_svg`: compute the output path -- the requested one, or
the default when none is given -- then run the single insertion, which
saves the document at that output path.  Returns the success flag, the
filesystem and the output path used. -/
def insert_svg_single (fs : FS) (baseDir ts pptxPath : String) (svg : String × Bool)
    (slideNumber : Nat) (outputPath : String) (createIfNotExists : Bool) :
    Bool × FS × String :=
  let outp := if outputPath = "" then default_output_path baseDir ts pptxPath else outputPath
  let r := process_single_svg fs pptxPath svg slideNumber outp createIfNotExists
  (r.1, r.2, outp)

/-! ## Theorems -/

example : project 19050 .px = emu_to_px 19050 := rfl

example : scanLen "50%".data false = .bare false [ '5', '0' ] [] := by decide

example : scanLen "50%".data true = .percent false [ '5', '0' ] [] := by decide

example : scanLen "914400".data false = .bare false [ '9', '1', '4', '4', '0', '0' ] [] := by
  decide

example : scanLen "1in".data false = .withUnit false [ '1' ] [] .inch := by decide

example : scanLen "2.54cm".data false = .withUnit false [ '2' ] [ '5', '4' ] .cm := by decide

example : scanLen "xyz".data false = .malformed := by decide

example : scanLen "5zz".data false = .badUnit := by decide

example : to_emu "50%" none = .ok 50 := by
  have hs : scanLen "50%".data false = .bare false [ '5', '0' ] [] := by decide
  have hd : digitsToNat [ '5', '0' ] = 50 := by decide
  have hd0 : digitsToNat [] = 0 := rfl
  simp [to_emu, hs, signedVal, decVal, hd, hd0, ratTrunc]

/-! ## Helper lemmas about the converter -/
theorem ratTrunc_of_nonneg {q : ℚ} (h : 0 ≤ q) : ratTrunc q = ⌊q⌋ := if_pos h

theorem ratTrunc_intCast (n : Int) : ratTrunc (n : ℚ) = n := by
  unfold ratTrunc
  split <;> simp

theorem ratTrunc_natCast (n : Nat) : ratTrunc (n : ℚ) = n := by
  have := ratTrunc_intCast (n : Int)
  simpa using this

theorem ratTrunc_neg (q : ℚ) : ratTrunc (-q) = -ratTrunc q := by
  unfold ratTrunc
  rcases lt_trichotomy q 0 with h | h | h
  · rw [if_pos (by linarith), if_neg (by linarith), Int.floor_neg]
  · subst h; simp
  · rw [if_neg (by linarith), if_pos (by linarith), Int.ceil_neg]

theorem to_emu_num_eq (q : ℚ) (u : LenUnit) :
    to_emu_num q u = ratTrunc (q * (emuPer u : ℚ)) := by
  cases u <;> rfl

theorem emuPer_pos (u : LenUnit) : (0 : ℚ) < (emuPer u : ℚ) := by
  cases u <;> norm_num [emuPer, EMU_PER_PT, EMU_PER_INCH, EMU_PER_CM, EMU_PER_MM, EMU_PER_PX]

theorem takeWhile_append_all {p : Char → Bool} :
    ∀ (l l2 : List Char), (∀ c ∈ l, p c = true) →
      (l ++ l2).takeWhile p = l ++ l2.takeWhile p
  | [], _, _ => by simp
  | c :: cs, l2, h => by
    simp only [List.cons_append, List.takeWhile_cons, h c (by simp)]
    simp [takeWhile_append_all cs l2 (fun d hd => h d (by simp [hd]))]

theorem dropWhile_append_all {p : Char → Bool} :
    ∀ (l l2 : List Char), (∀ c ∈ l, p c = true) →
      (l ++ l2).dropWhile p = l2.dropWhile p
  | [], _, _ => by simp
  | c :: cs, l2, h => by
    simp only [List.cons_append, List.dropWhile_cons, h c (by simp)]
    simp [dropWhile_append_all cs l2 (fun d hd => h d (by simp [hd]))]

theorem scanLen_digits_percent (D : List Char) (hne : D ≠ [])
    (hdig : ∀ c ∈ D, Char.isDigit c = true) :
    scanLen (D ++ [ '%' ]) false = .bare false D [] := by
  obtain ⟨c, D', rfl⟩ := List.exists_cons_of_ne_nil hne
  have hc : Char.isDigit c = true := hdig c (by simp)
  have hcm : ¬ c = '-' := by
    intro h; rw [h] at hc; exact absurd hc (by decide)
  have hnum : ∀ d ∈ c :: D', isNumChar d = true := by
    intro d hd; simp [isNumChar, hdig d hd]
  have hpcnum : isNumChar '%' = false := by decide
  have hpcalpha : Char.isAlpha '%' = false := by decide
  have htake : List.takeWhile isNumChar (c :: (D' ++ [ '%' ])) = c :: D' := by
    have h := takeWhile_append_all (c :: D') [ '%' ] hnum
    simpa [List.takeWhile_cons, hpcnum] using h
  have hdrop : List.dropWhile isNumChar (c :: (D' ++ [ '%' ])) = [ '%' ] := by
    have h := dropWhile_append_all (c :: D') [ '%' ] hnum
    simpa [List.dropWhile_cons, hpcnum] using h
  have hip : List.takeWhile Char.isDigit (c :: D') = c :: D' := by
    have h := takeWhile_append_all (c :: D') [] hdig
    simpa using h
  have hipd : List.dropWhile Char.isDigit (c :: D') = [] := by
    have h := dropWhile_append_all (c :: D') [] hdig
    simpa using h
  have hshape : decShape (c :: D') = some (c :: D', []) := by
    simp [decShape, hip, hipd]
  have hsplit : splitSign (c :: (D' ++ [ '%' ])) = (false, c :: (D' ++ [ '%' ])) := by
    simp [splitSign, hcm]
  simp [scanLen, hsplit, htake, hdrop, hshape, hpcalpha, List.takeWhile_cons]

/-- C1 (corrected): a percentage expression parsed with no reference total
does not fail with InvalidExpression.  The percentage branch of `to_emu`
requires `total` to be present, and the percent sign matches neither the
numeric group nor the letter group of the regex, so the numeric prefix is
parsed and returned as a bare canonical (EMU) number.  Stated for any
percentage expression whose body is a plain digit string. -/
theorem percent_without_total_parses_as_bare_number
    (D : List Char) (hne : D ≠ []) (hdig : D.all Char.isDigit = true) :
    to_emu (String.mk (D ++ [ '%' ])) none = .ok ((digitsToNat D : Nat) : Int) := by
  have hdig' : ∀ c ∈ D, Char.isDigit c = true := by
    intro c hc; exact List.all_eq_true.mp hdig c hc
  have hscan := scanLen_digits_percent D hne hdig'
  have hmk : (String.mk (D ++ [ '%' ])).data = D ++ [ '%' ] := rfl
  have h0 : digitsToNat [] = 0 := rfl
  simp [to_emu, hmk, hscan, signedVal, decVal, h0, ratTrunc_natCast]

/-- Witness for C1's amended theorem at the spec's own example input. -/
theorem percent_without_total_parses_as_bare_number_witness :
    ([ '5', '0' ] : List Char) ≠ [] ∧ ([ '5', '0' ] : List Char).all Char.isDigit = true ∧
    to_emu (String.mk ([ '5', '0' ] ++ [ '%' ])) none =
      .ok ((digitsToNat [ '5', '0' ] : Nat) : Int) :=
  ⟨by decide, by decide,
    percent_without_total_parses_as_bare_number [ '5', '0' ] (by decide) (by decide)⟩

/-- C1 counterexample: `to_emu` applied to "50%" with no total yields the
number 50; it does not fail with InvalidExpression as the claim states. -/
theorem percent_without_total_not_error :
    to_emu "50%" none = .ok 50 ∧ to_emu "50%" none ≠ .error .invalidExpression := by
  have hs : scanLen "50%".data false = .bare false [ '5', '0' ] [] := by decide
  have hd : digitsToNat [ '5', '0' ] = 50 := by decide
  have h0 : digitsToNat [] = 0 := rfl
  constructor
  · simp [to_emu, hs, signedVal, decVal, hd, h0, ratTrunc]
  · simp [to_emu, hs]

/-- C3 counterexample: for v = 0.00001 and unit px, the parse truncates
0.09525 EMU to 0, and projecting 0 back to pixels gives 0, which is not
within relative tolerance one-in-a-million of v. -/
theorem round_trip_tolerance_violated_at_small_px :
    to_emu "0.00001px" none = .ok 0 ∧
    ¬ (|emu_to_px ((0 : Int) : ℚ) - 1 / 100000| ≤ 1 / 10 ^ 6 * (1 / 100000)) := by
  constructor
  · have hs : scanLen "0.00001px".data false =
        .withUnit false [ '0' ] [ '0', '0', '0', '0', '1' ] .px := by decide
    have h1 : digitsToNat [ '0' ] = 0 := by decide
    have h2 : digitsToNat [ '0', '0', '0', '0', '1' ] = 1 := by decide
    simp [to_emu, hs, signedVal, decVal, h1, h2, to_emu_num_eq, emuPer, EMU_PER_PX]
    rw [ratTrunc_of_nonneg (by norm_num), Int.floor_eq_iff] <;> norm_num
  · simp only [emu_to_px]
    rw [abs_of_nonpos (by norm_num)]
    norm_num

/-- C3 (corrected): the round trip loses at most one canonical unit to the
`int()` truncation: the projection back is at most v and exceeds
v minus one projected canonical unit.  The one-in-a-million relative
tolerance of the claim therefore holds once v times the per-unit constant
is at least a million, but not for arbitrarily small positive v. -/
theorem round_trip_within_one_emu (v : ℚ) (u : LenUnit) (hv : 0 < v) :
    project ((to_emu_num v u : ℚ)) u ≤ v ∧
    v - 1 / (emuPer u : ℚ) < project ((to_emu_num v u : ℚ)) u ∧
    ((10 : ℚ) ^ 6 ≤ v * (emuPer u : ℚ) →
      |project ((to_emu_num v u : ℚ)) u - v| ≤ 1 / 10 ^ 6 * v) := by
  have hf : (0 : ℚ) < (emuPer u : ℚ) := emuPer_pos u
  have hvf : 0 ≤ v * (emuPer u : ℚ) := mul_nonneg hv.le hf.le
  have ht : to_emu_num v u = ⌊v * (emuPer u : ℚ)⌋ := by
    rw [to_emu_num_eq, ratTrunc_of_nonneg hvf]
  have hle : ((to_emu_num v u : ℚ)) ≤ v * (emuPer u : ℚ) := by
    rw [ht]; exact Int.floor_le _
  have hgt : v * (emuPer u : ℚ) - 1 < ((to_emu_num v u : ℚ)) := by
    rw [ht]; exact Int.sub_one_lt_floor _
  have h1 : project ((to_emu_num v u : ℚ)) u ≤ v := by
    rw [project, div_le_iff hf]; exact hle
  have h2 : v - 1 / (emuPer u : ℚ) < project ((to_emu_num v u : ℚ)) u := by
    rw [project, lt_div_iff hf]
    have he : (v - 1 / (emuPer u : ℚ)) * (emuPer u : ℚ) = v * (emuPer u : ℚ) - 1 := by
      field_simp
    rw [he]; exact hgt
  refine ⟨h1, h2, fun hbig => ?_⟩
  have h3 : 1 / (emuPer u : ℚ) ≤ 1 / 10 ^ 6 * v := by
    rw [div_le_iff hf]
    have h5 : (1 : ℚ) / 10 ^ 6 * (10 ^ 6) ≤ 1 / 10 ^ 6 * (v * (emuPer u : ℚ)) :=
      mul_le_mul_of_nonneg_left hbig (by norm_num)
    calc (1 : ℚ) = 1 / 10 ^ 6 * 10 ^ 6 := by norm_num
      _ ≤ 1 / 10 ^ 6 * (v * (emuPer u : ℚ)) := h5
      _ = 1 / 10 ^ 6 * v * (emuPer u : ℚ) := by ring
  have habs : |project ((to_emu_num v u : ℚ)) u - v| = v - project ((to_emu_num v u : ℚ)) u := by
    rw [abs_of_nonpos (by linarith)]; ring
  rw [habs]
  linarith

/-- Witness for C3's amended theorem at v = 1, unit px. -/
theorem round_trip_within_one_emu_witness :
    (0 : ℚ) < 1 ∧
    (project ((to_emu_num 1 .px : ℚ)) .px ≤ 1 ∧
      1 - 1 / (emuPer .px : ℚ) < project ((to_emu_num 1 .px : ℚ)) .px ∧
      ((10 : ℚ) ^ 6 ≤ 1 * (emuPer .px : ℚ) →
        |project ((to_emu_num 1 .px : ℚ)) .px - 1| ≤ 1 / 10 ^ 6 * 1)) :=
  ⟨by norm_num, round_trip_within_one_emu 1 .px (by norm_num)⟩

/-- C4 (confirmed): the converter uses the exact constants
1 inch = 914400 EMU = 72 pt, 2.54 cm = 914400 EMU, 25.4 mm = 914400 EMU,
1 px = 9525 EMU; parsing the bare number "914400" returns it unchanged, and
"1in" and "2.54cm" both parse to exactly 914400; when the destination is the
canonical unit the result is the integer truncation toward zero (floor for
nonnegative values, mirrored under negation). -/
theorem exact_constants_and_truncation :
    EMU_PER_INCH = 914400 ∧
    EMU_PER_INCH = 72 * EMU_PER_PT ∧
    ((254 : ℚ) / 100) * (EMU_PER_CM : ℚ) = (EMU_PER_INCH : ℚ) ∧
    ((254 : ℚ) / 10) * (EMU_PER_MM : ℚ) = (EMU_PER_INCH : ℚ) ∧
    EMU_PER_PX = 9525 ∧
    to_emu "914400" none = .ok 914400 ∧
    to_emu "1in" none = .ok 914400 ∧
    to_emu "2.54cm" none = .ok 914400 ∧
    (∀ (v : ℚ) (u : LenUnit), 0 ≤ v → to_emu_num v u = ⌊v * (emuPer u : ℚ)⌋) ∧
    (∀ (v : ℚ) (u : LenUnit), to_emu_num (-v) u = -to_emu_num v u) := by
  refine ⟨rfl, by norm_num [EMU_PER_INCH, EMU_PER_PT],
    by norm_num [EMU_PER_CM, EMU_PER_INCH],
    by norm_num [EMU_PER_MM, EMU_PER_INCH],
    rfl, ?_, ?_, ?_, ?_, ?_⟩
  · have hs : scanLen "914400".data false =
        .bare false [ '9', '1', '4', '4', '0', '0' ] [] := by decide
    have hd : digitsToNat [ '9', '1', '4', '4', '0', '0' ] = 914400 := by decide
    have h0 : digitsToNat [] = 0 := rfl
    simp [to_emu, hs, signedVal, decVal, hd, h0]
    rw [ratTrunc_of_nonneg (by norm_num), Int.floor_eq_iff] <;> norm_num
  · have hs : scanLen "1in".data false = .withUnit false [ '1' ] [] .inch := by decide
    have hd : digitsToNat [ '1' ] = 1 := by decide
    have h0 : digitsToNat [] = 0 := rfl
    simp [to_emu, hs, signedVal, decVal, hd, h0, to_emu_num_eq, emuPer, EMU_PER_INCH]
    rw [ratTrunc_of_nonneg (by norm_num), Int.floor_eq_iff] <;> norm_num
  · have hs : scanLen "2.54cm".data false = .withUnit false [ '2' ] [ '5', '4' ] .cm := by
      decide
    have h1 : digitsToNat [ '2' ] = 2 := by decide
    have h2 : digitsToNat [ '5', '4' ] = 54 := by decide
    simp [to_emu, hs, signedVal, decVal, h1, h2, to_emu_num_eq, emuPer, EMU_PER_CM]
    rw [ratTrunc_of_nonneg (by norm_num), Int.floor_eq_iff] <;> norm_num
  · intro v u hv
    rw [to_emu_num_eq, ratTrunc_of_nonneg (mul_nonneg hv (emuPer_pos u).le)]
  · intro v u
    rw [to_emu_num_eq, to_emu_num_eq, neg_mul, ratTrunc_neg]

/-- Witness for C4's truncation clause at v = 3/2, unit pt. -/
theorem exact_constants_and_truncation_witness :
    (0 : ℚ) ≤ 3 / 2 ∧ to_emu_num (3 / 2) .pt = ⌊(3 / 2 : ℚ) * (emuPer .pt : ℚ)⌋ :=
  ⟨by norm_num,
    exact_constants_and_truncation.2.2.2.2.2.2.2.2.1 (3 / 2) .pt (by norm_num)⟩

example : cleanup_filename "deck_svg_20240101_120000" = "deck" := by decide

example : cleanup_filename "a__b___c_" = "a_b_c" := by decide

example : cleanupChars "deck".data = "deck".data := by decide

/-! ## Lemmas about the sanitizer -/
theorem matchTagAt_cons_ne {c : Char} (h : ¬ c = '_') (l : List Char) :
    matchTagAt (c :: l) = none := by
  simp [matchTagAt, h]

theorem dropExact_self : ∀ (w rest : List Char), dropExact w (w ++ rest) = some rest
  | [], _ => rfl
  | c :: w, rest => by simp [dropExact, dropExact_self w rest]

theorem matchDigits_exact : ∀ (D rest : List Char), D.all Char.isDigit = true →
    matchDigits D.length (D ++ rest) = some rest
  | [], _, _ => rfl
  | c :: D, rest, h => by
      rw [List.all_cons, Bool.and_eq_true] at h
      simp [matchDigits, h.1, matchDigits_exact D rest h.2]

theorem dropExact_length : ∀ (w cs r : List Char), dropExact w cs = some r →
    r.length ≤ cs.length
  | [], cs, r, h => by
      simp [dropExact] at h
      subst h; exact le_refl _
  | _ :: _, [], _, h => by simp [dropExact] at h
  | w :: ws, c :: cs, r, h => by
      rw [dropExact] at h
      by_cases hc : c = w
      · rw [if_pos hc] at h
        exact (dropExact_length ws cs r h).trans (by simp)
      · rw [if_neg hc] at h; cases h

theorem matchDigits_length : ∀ (n : Nat) (cs r : List Char), matchDigits n cs = some r →
    r.length ≤ cs.length
  | 0, cs, r, h => by
      simp [matchDigits] at h
      subst h; exact le_refl _
  | _ + 1, [], _, h => by simp [matchDigits] at h
  | n + 1, c :: cs, r, h => by
      rw [matchDigits] at h
      by_cases hc : c.isDigit = true
      · rw [if_pos hc] at h
        exact (matchDigits_length n cs r h).trans (by simp)
      · rw [if_neg hc] at h; cases h

theorem matchTail2_length (r3 r : List Char) (h : matchTail2 r3 = some r) :
    r.length < r3.length := by
  match r3 with
  | [] => simp [matchTail2] at h
  | c2 :: r4 =>
      rw [matchTail2] at h
      by_cases hc2 : c2 = '_'
      · rw [if_pos hc2] at h
        have := matchDigits_length 6 r4 r h
        simp only [List.length_cons]
        omega
      · rw [if_neg hc2] at h; cases h

theorem matchTail1_length (r1 r : List Char) (h : matchTail1 r1 = some r) :
    r.length < r1.length := by
  match r1 with
  | [] => simp [matchTail1] at h
  | c1 :: r2 =>
      rw [matchTail1] at h
      by_cases hc1 : c1 = '_'
      · rw [if_pos hc1] at h
        cases hd8 : matchDigits 8 r2 with
        | none => rw [hd8] at h; cases h
        | some r3 =>
            rw [hd8, Option.some_bind] at h
            have h1 := matchDigits_length 8 r2 r3 hd8
            have h2 := matchTail2_length r3 r h
            simp only [List.length_cons]
            omega
      · rw [if_neg hc1] at h; cases h

theorem matchTagAt_length : ∀ (cs r : List Char), matchTagAt cs = some r →
    r.length < cs.length := by
  intro cs r h
  match cs with
  | [] => simp [matchTagAt] at h
  | c :: rest =>
      rw [matchTagAt] at h
      by_cases hc : c = '_'
      case neg => rw [if_neg hc] at h; cases h
      rw [if_pos hc] at h
      obtain ⟨w, _, hfw⟩ := List.exists_of_findSome?_eq_some h
      cases hde : dropExact w rest with
      | none => rw [hde] at hfw; cases hfw
      | some r1 =>
          rw [hde, Option.some_bind] at hfw
          have hr1 : r1.length ≤ rest.length := dropExact_length w rest r1 hde
          have hr := matchTail1_length r1 r hfw
          simp only [List.length_cons]
          omega

theorem stripTagsF_irrel : ∀ (f1 : Nat) (cs : List Char) (f2 : Nat),
    cs.length ≤ f1 → cs.length ≤ f2 → stripTagsF f1 cs = stripTagsF f2 cs
  | 0, cs, f2, h1, _ => by
      have : cs = [] := List.eq_nil_of_length_eq_zero (Nat.le_zero.mp h1)
      subst this
      cases f2 <;> rfl
  | _ + 1, [], f2, _, _ => by cases f2 <;> rfl
  | f1 + 1, c :: cs, f2, h1, h2 => by
      match f2, h2 with
      | f2 + 1, h2 =>
          cases hm : matchTagAt (c :: cs) with
          | some r =>
              have hlt : r.length < (c :: cs).length := matchTagAt_length _ _ hm
              simp only [List.length_cons] at h1 h2 hlt
              simp only [stripTagsF, hm]
              exact stripTagsF_irrel f1 r f2 (by omega) (by omega)
          | none =>
              simp only [List.length_cons] at h1 h2
              simp only [stripTagsF, hm]
              rw [stripTagsF_irrel f1 cs f2 (by omega) (by omega)]

theorem stripTags_cons_none {c : Char} {cs : List Char}
    (h : matchTagAt (c :: cs) = none) :
    stripTags (c :: cs) = c :: stripTags cs := by
  rw [stripTags, stripTags, List.length_cons]
  simp [stripTagsF, h]

theorem stripTags_cons_match {c : Char} {cs r : List Char}
    (h : matchTagAt (c :: cs) = some r) :
    stripTags (c :: cs) = stripTags r := by
  have hlt : r.length < (c :: cs).length := matchTagAt_length _ _ h
  simp only [List.length_cons] at hlt
  rw [stripTags, stripTags, List.length_cons]
  simp only [stripTagsF, h]
  exact stripTagsF_irrel cs.length r r.length (by omega) (le_refl _)

theorem matchTagAt_block {t D T : List Char} (rest : List Char)
    (ht : t ∈ tagWords) (hD : D.length = 8) (hDd : D.all Char.isDigit = true)
    (hT : T.length = 6) (hTd : T.all Char.isDigit = true) :
    matchTagAt ('_' :: (t ++ '_' :: (D ++ '_' :: (T ++ rest)))) = some rest := by
  have h8 : matchDigits 8 (D ++ '_' :: (T ++ rest)) = some ('_' :: (T ++ rest)) := by
    rw [← hD]; exact matchDigits_exact D _ hDd
  have h6 : matchDigits 6 (T ++ rest) = some rest := by
    rw [← hT]; exact matchDigits_exact T _ hTd
  fin_cases ht <;>
    simp [matchTagAt, tagWords, List.findSome?_cons, dropExact, matchTail1, matchTail2, h8, h6]

theorem stripTags_deck_block {t D T : List Char}
    (ht : t ∈ tagWords) (hD : D.length = 8) (hDd : D.all Char.isDigit = true)
    (hT : T.length = 6) (hTd : T.all Char.isDigit = true) :
    stripTags ("deck".data ++ '_' :: (t ++ '_' :: (D ++ '_' :: T))) = "deck".data := by
  have hb : matchTagAt ('_' :: (t ++ '_' :: (D ++ '_' :: T))) = some [] := by
    have h := matchTagAt_block [] ht hD hDd hT hTd
    simpa using h
  show stripTags ('d' :: 'e' :: 'c' :: 'k' :: '_' :: (t ++ '_' :: (D ++ '_' :: T))) =
    "deck".data
  rw [stripTags_cons_none (matchTagAt_cons_ne (by decide) _),
    stripTags_cons_none (matchTagAt_cons_ne (by decide) _),
    stripTags_cons_none (matchTagAt_cons_ne (by decide) _),
    stripTags_cons_none (matchTagAt_cons_ne (by decide) _),
    stripTags_cons_match hb]
  rfl

theorem cleanup_deck_block {t D T : List Char}
    (ht : t ∈ tagWords) (hD : D.length = 8) (hDd : D.all Char.isDigit = true)
    (hT : T.length = 6) (hTd : T.all Char.isDigit = true) :
    cleanupChars ("deck".data ++ '_' :: (t ++ '_' :: (D ++ '_' :: T))) = "deck".data := by
  rw [cleanupChars, stripTags_deck_block ht hD hDd hT hTd]
  decide

/-- C5 (corrected): for the base name "deck", any two operation tags drawn
from the recognized set and any well-formed timestamps, sanitizing the name
built by two synthesize steps yields "deck", and sanitizing again changes
nothing -- the fixed point is reached after one pass on this family of
names.  (The fully general claim over every synthesized name fails; see the
counterexample.) -/
theorem sanitize_synthesize_deck_fixed_point
    (t1 t2 D1 T1 D2 T2 : List Char)
    (ht1 : t1 ∈ tagWords) (ht2 : t2 ∈ tagWords)
    (hD1 : D1.length = 8) (hD1d : D1.all Char.isDigit = true)
    (hT1 : T1.length = 6) (hT1d : T1.all Char.isDigit = true)
    (hD2 : D2.length = 8) (hD2d : D2.all Char.isDigit = true)
    (hT2 : T2.length = 6) (hT2d : T2.all Char.isDigit = true) :
    cleanupChars (synthesizeName (synthesizeName "deck".data t1 D1 T1) t2 D2 T2) =
      "deck".data ∧
    cleanupChars (cleanupChars (synthesizeName (synthesizeName "deck".data t1 D1 T1) t2 D2 T2)) =
      cleanupChars (synthesizeName (synthesizeName "deck".data t1 D1 T1) t2 D2 T2) := by
  have hdeck : cleanupChars "deck".data = "deck".data := by decide
  have hin : synthesizeName "deck".data t1 D1 T1 =
      "deck".data ++ '_' :: (t1 ++ '_' :: (D1 ++ '_' :: T1)) := by
    rw [synthesizeName, hdeck]
  have hout : synthesizeName (synthesizeName "deck".data t1 D1 T1) t2 D2 T2 =
      "deck".data ++ '_' :: (t2 ++ '_' :: (D2 ++ '_' :: T2)) := by
    rw [synthesizeName, hin, cleanup_deck_block ht1 hD1 hD1d hT1 hT1d]
  refine ⟨?_, ?_⟩
  · rw [hout]; exact cleanup_deck_block ht2 hD2 hD2d hT2 hT2d
  · rw [hout, cleanup_deck_block ht2 hD2 hD2d hT2 hT2d, hdeck]

/-- Witness for C5's amended theorem at concrete tags and timestamps. -/
theorem sanitize_synthesize_deck_fixed_point_witness :
    ([ 's', 'v', 'g' ] : List Char) ∈ tagWords ∧
    cleanupChars (synthesizeName
        (synthesizeName "deck".data [ 's', 'v', 'g' ] "20240101".data "120000".data)
        [ 'd', 'e', 'l', 'e', 't', 'e', 'd' ] "20240529".data "153045".data) =
      "deck".data :=
  ⟨by decide,
    (sanitize_synthesize_deck_fixed_point [ 's', 'v', 'g' ]
      [ 'd', 'e', 'l', 'e', 't', 'e', 'd' ] "20240101".data "120000".data
      "20240529".data "153045".data (by decide) (by decide) (by decide) (by decide)
      (by decide) (by decide) (by decide) (by decide) (by decide) (by decide)).1⟩

/-- C5 counterexample: one synthesize step applied to an adversarially
chosen base name yields a name on which the sanitizer is not idempotent:
removing a match glues surrounding text into a new match, which `re.sub`
does not rescan, so a second sanitize pass removes more.  The name is a
genuine synthesize output (tag svg, date 20250101, time 000000). -/
theorem sanitize_not_idempotent_on_synthesized :
    cleanupChars (cleanupChars (synthesizeName
        "_svg_1234567_svg_1111_svg_99999999_9999991111_1111118_123456".data
        [ 's', 'v', 'g' ] "20250101".data "000000".data)) ≠
      cleanupChars (synthesizeName
        "_svg_1234567_svg_1111_svg_99999999_9999991111_1111118_123456".data
        [ 's', 'v', 'g' ] "20250101".data "000000".data) := by
  decide

theorem collapseUSAux_ok : ∀ (cs : List Char) (b : Bool),
    noDoubleUS (collapseUSAux b cs) = true ∧
    (b = true → headNotUS (collapseUSAux b cs) = true)
  | [], _ => ⟨rfl, fun _ => rfl⟩
  | c :: cs, b => by
      by_cases hc : c = '_'
      · subst hc
        cases b with
        | true =>
            have ih := collapseUSAux_ok cs true
            simpa [collapseUSAux] using ih
        | false =>
            have ih := collapseUSAux_ok cs true
            refine ⟨?_, fun h => by cases h⟩
            cases hX : collapseUSAux true cs with
            | nil => simp [collapseUSAux, hX, noDoubleUS]
            | cons d t =>
                have hd : ¬ d = '_' := by
                  have h2 := ih.2 rfl
                  rw [hX] at h2
                  simpa [headNotUS] using h2
                have hnd := ih.1
                rw [hX] at hnd
                simp [collapseUSAux, hX, noDoubleUS, hd, hnd]
      · have ih := collapseUSAux_ok cs false
        refine ⟨?_, fun _ => by simp [collapseUSAux, hc, headNotUS]⟩
        cases hX : collapseUSAux false cs with
        | nil => simp [collapseUSAux, hc, hX, noDoubleUS]
        | cons d t =>
            have hnd := ih.1
            rw [hX] at hnd
            simp [collapseUSAux, hc, hX, noDoubleUS, hnd]

theorem noDoubleUS_take : ∀ (cs : List Char) (n : Nat),
    noDoubleUS cs = true → noDoubleUS (cs.take n) = true
  | [], n, _ => by simp [noDoubleUS]
  | [c], n, _ => by cases n <;> simp [noDoubleUS]
  | c :: d :: t, 0, _ => by simp [noDoubleUS]
  | c :: d :: t, 1, _ => by simp [noDoubleUS]
  | c :: d :: t, n + 2, h => by
      rw [noDoubleUS, Bool.and_eq_true] at h
      have ih := noDoubleUS_take (d :: t) (n + 1) h.2
      simp only [List.take_succ_cons]
      rw [noDoubleUS, Bool.and_eq_true]
      exact ⟨h.1, by simpa using ih⟩

theorem rstripUS_append (cs : List Char) :
    rstripUS cs ++ (cs.reverse.takeWhile (· = '_')).reverse = cs := by
  rw [rstripUS, ← List.reverse_append, List.takeWhile_append_dropWhile, List.reverse_reverse]

theorem rstripUS_eq_take (cs : List Char) :
    rstripUS cs = cs.take (rstripUS cs).length := by
  calc rstripUS cs
      = (rstripUS cs ++ (cs.reverse.takeWhile (· = '_')).reverse).take
          (rstripUS cs).length := by rw [List.take_left]
    _ = cs.take (rstripUS cs).length := by rw [rstripUS_append]

theorem noDoubleUS_rstripUS (cs : List Char) (h : noDoubleUS cs = true) :
    noDoubleUS (rstripUS cs) = true := by
  rw [rstripUS_eq_take]
  exact noDoubleUS_take cs _ h

theorem head?_dropWhileUS : ∀ (l : List Char) (d : Char),
    (l.dropWhile (· = '_')).head? = some d → ¬ d = '_'
  | [], d, h => by simp at h
  | c :: t, d, h => by
      by_cases hc : c = '_'
      · rw [List.dropWhile_cons] at h
        simp only [hc] at h
        exact head?_dropWhileUS t d (by simpa using h)
      · simp [List.dropWhile_cons, hc] at h
        subst h
        exact hc

theorem getLast?_rstripUS (cs : List Char) : ¬ (rstripUS cs).getLast? = some '_' := by
  rw [rstripUS, List.getLast?_reverse]
  intro h
  exact head?_dropWhileUS _ _ h rfl

/-- C10 (confirmed): for every input string, the sanitizer's output has no
run of two or more consecutive underscores and does not end with an
underscore: the collapsing pass leaves no two adjacent underscores, taking a
prefix preserves that, and the final rstrip removes any trailing
underscores. -/
theorem cleanup_filename_no_double_no_trailing (s : String) :
    noDoubleUS (cleanup_filename s).data = true ∧
    ¬ (cleanup_filename s).data.getLast? = some '_' := by
  constructor
  · exact noDoubleUS_rstripUS _ (collapseUSAux_ok (stripTags s.data) false).1
  · exact getLast?_rstripUS _

/-- C6 (confirmed): for any slide list, any slide and any index i with
1 <= i <= length + 1, inserting at i and then deleting at i restores the
original ordered sequence. -/
theorem insert_then_delete_restores {α : Type} (l : List α) (s : α) (i : Nat)
    (h1 : 1 ≤ i) (h2 : i ≤ l.length + 1) :
    (insert_blank_slide l i s).bind (fun l2 => delete_slide l2 i) = .ok l := by
  rw [insert_blank_slide, if_pos ⟨h1, h2⟩]
  by_cases hlt : i - 1 < l.length
  · simp only [List.dropLast_concat]
    rw [if_pos hlt]
    show delete_slide (l.insertIdx (i - 1) s) i = .ok l
    rw [delete_slide,
      if_pos ⟨h1, by rw [List.length_insertIdx (i - 1) l hlt.le]; omega⟩,
      List.eraseIdx_insertIdx]
  · rw [if_neg hlt]
    show delete_slide (l ++ [s]) i = .ok l
    have hi : i - 1 = l.length := by omega
    rw [delete_slide, if_pos ⟨h1, by simp; omega⟩, hi, ← List.insertIdx_length_self l s,
      List.eraseIdx_insertIdx]

/-- Witness for C6 at a middle position of a concrete list. -/
theorem insert_then_delete_restores_witness :
    (1 ≤ 2 ∧ 2 ≤ ([10, 20] : List Nat).length + 1) ∧
    (insert_blank_slide ([10, 20] : List Nat) 2 99).bind (fun l2 => delete_slide l2 2) =
      .ok [10, 20] :=
  ⟨⟨by norm_num, by norm_num⟩,
    insert_then_delete_restores [10, 20] 99 2 (by norm_num) (by norm_num)⟩

/-- C7 counterexample: with target index 0 and an empty collection the
length (0) is already at least the index, yet the block appends one blank
slide instead of being a no-op. -/
theorem auto_extend_not_noop_at_zero :
    (0 : Int) ≤ (([] : List Unit).length : Int) ∧
    ensure_slide_count 0 ([] : List Unit) () ≠ [] := by
  constructor
  · decide
  · decide

/-- C7 (corrected): when the target index i exceeds the current length, the
auto-extension appends blank slides so the length becomes exactly i and
every pre-existing slide keeps its position; when 1 <= i <= length it is a
no-op.  (For i <= 0 on an empty collection the block appends one blank slide
instead of being a no-op; see the counterexample.) -/
theorem auto_extension_spec {α : Type} (l : List α) (blank : α) (i : Int) :
    ((l.length : Int) < i →
      ensure_slide_count i l blank = l ++ List.replicate (i - l.length).toNat blank ∧
      ((ensure_slide_count i l blank).length : Int) = i ∧
      (ensure_slide_count i l blank).take l.length = l) ∧
    (1 ≤ i → i ≤ (l.length : Int) → ensure_slide_count i l blank = l) := by
  constructor
  · intro hlt
    rw [ensure_slide_count, if_pos hlt]
    refine ⟨rfl, ?_, List.take_left l _⟩
    simp only [List.length_append, List.length_replicate]
    omega
  · intro h1 h2
    rw [ensure_slide_count, if_neg (by omega), if_neg (by omega)]

/-- Witness for C7's amended theorem: extend a two-slide deck to five, and
see a no-op at an in-range index. -/
theorem auto_extension_spec_witness :
    ensure_slide_count 5 ([10, 20] : List Nat) 7 = [10, 20, 7, 7, 7] ∧
    ensure_slide_count 2 ([10, 20] : List Nat) 7 = [10, 20] := by
  constructor
  · have h := (auto_extension_spec ([10, 20] : List Nat) 7 5).1 (by norm_num)
    rw [h.1]
    rfl
  · exact (auto_extension_spec ([10, 20] : List Nat) 7 2).2 (by norm_num) (by norm_num)

theorem runBatchAux_length (c : Bool) (tb of : String) (ss : Nat) :
    ∀ (svgs : List (String × Bool)) (fs : FS) (cin : String) (i : Nat),
      (runBatchAux c tb of ss fs cin i svgs).2.length = svgs.length
  | [], _, _, _ => rfl
  | svg :: rest, fs, cin, i => by
      rw [runBatchAux]
      simpa using runBatchAux_length c tb of ss rest _ _ (i + 1)

theorem removeTemps_none (tb : String) :
    ∀ (n : Nat) (fs : FS) (i : Nat), i < n → removeTemps tb fs n (tempPath tb i) = none
  | 0, _, _, h => absurd h (Nat.not_lt_zero _)
  | n + 1, fs, i, h => by
      rw [removeTemps, fsRemove]
      by_cases he : tempPath tb i = tempPath tb n
      · rw [if_pos he]
      · rw [if_neg he]
        have hi : i < n := by
          rcases Nat.lt_succ_iff_lt_or_eq.mp h with h' | h'
          · exact h'
          · exact absurd (by rw [h']) he
        exact removeTemps_none tb n fs i hi

/-- C8 (confirmed): every item of a nonempty batch is attempted and yields
exactly one outcome -- the report has one entry per item, failures included
-- and after the final cleanup no scratch snapshot path holds a file,
regardless of which steps failed. -/
theorem batch_attempts_all_and_cleans_up (fs : FS) (pptxPath : String)
    (svgs : List (String × Bool)) (slideStart : Nat) (outputPath tempBase : String)
    (create : Bool) (hne : svgs ≠ []) :
    (insert_svg_batch fs pptxPath svgs slideStart outputPath tempBase create).2.length =
      svgs.length ∧
    ∀ i, i < svgs.length - 1 →
      (insert_svg_batch fs pptxPath svgs slideStart outputPath tempBase create).1
        (tempPath tempBase i) = none := by
  constructor
  · exact runBatchAux_length _ _ _ _ svgs fs pptxPath 0
  · intro i hi
    exact removeTemps_none tempBase (svgs.length - 1) _ i hi

/-- Witness for C8 on a concrete two-item batch whose second item fails. -/
theorem batch_attempts_all_and_cleans_up_witness :
    ([ ("a.svg", true), ("b.svg", false) ] : List (String × Bool)) ≠ [] ∧
    ((insert_svg_batch (fun _ => none) "in.pptx" [ ("a.svg", true), ("b.svg", false) ] 1
        "out.pptx" "tmp/b" false).2.length = 2 ∧
      ∀ i, i < 1 →
        (insert_svg_batch (fun _ => none) "in.pptx" [ ("a.svg", true), ("b.svg", false) ] 1
          "out.pptx" "tmp/b" false).1 (tempPath "tmp/b" i) = none) := by
  refine ⟨by decide, ?_⟩
  have h := batch_attempts_all_and_cleans_up (fun _ => none) "in.pptx"
    [ ("a.svg", true), ("b.svg", false) ] 1 "out.pptx" "tmp/b" false (by decide)
  simpa using h

theorem runBatchAux_inputs (c : Bool) (tb of : String) (ss : Nat) :
    ∀ (svgs : List (String × Bool)) (fs : FS) (cin : String) (i : Nat), svgs ≠ [] →
      (runBatchAux c tb of ss fs cin i svgs).2.map StepOutcome.inputPath =
        cin :: (List.range (svgs.length - 1)).map (fun j => tempPath tb (i + j))
  | [], _, _, _, h => absurd rfl h
  | [svg], fs, cin, i, _ => by
      simp [runBatchAux]
  | svg :: svg2 :: rest, fs, cin, i, _ => by
      rw [runBatchAux]
      simp only [List.isEmpty_cons, Bool.false_eq_true, if_false, List.map_cons]
      rw [runBatchAux_inputs c tb of ss (svg2 :: rest) _ (tempPath tb i) (i + 1) (by simp)]
      simp only [List.length_cons, Nat.add_sub_cancel, List.range_succ_eq_map,
        List.map_cons, List.map_map, Nat.add_zero]
      congr 1
      congr 1
      apply List.map_congr_left
      intro j _
      simp only [Function.comp_apply]
      congr 1
      omega

/-- C2 (corrected): the scratch pointer is advanced past a failed step.  In
every nonempty batch, step 1 reads the original document and step k+1 reads
the scratch path of step k whether step k succeeded or not (main.py line
217) -- not the last successful state.  With the failed step's snapshot
absent, the next step recreates a fresh document, so earlier successes can
be discarded from the final output (see the counterexample). -/
theorem batch_input_pointer_always_advances (fs : FS) (pptxPath : String)
    (svgs : List (String × Bool)) (slideStart : Nat) (outputPath tempBase : String)
    (create : Bool) (hne : svgs ≠ []) :
    (insert_svg_batch fs pptxPath svgs slideStart outputPath tempBase create).2.map
        StepOutcome.inputPath =
      pptxPath :: (List.range (svgs.length - 1)).map (fun j => tempPath tempBase j) := by
  have h := runBatchAux_inputs create tempBase
    (if outputPath = "" then pptxPath else outputPath) slideStart svgs fs pptxPath 0 hne
  simpa using h

/-- Witness for C2's amended theorem on a concrete two-item batch. -/
theorem batch_input_pointer_always_advances_witness :
    ([ ("a.svg", true), ("b.svg", false) ] : List (String × Bool)) ≠ [] ∧
    (insert_svg_batch (fun _ => none) "in.pptx" [ ("a.svg", true), ("b.svg", false) ] 1
        "out.pptx" "tmp/b" false).2.map StepOutcome.inputPath =
      "in.pptx" :: (List.range 1).map (fun j => tempPath "tmp/b" j) := by
  refine ⟨by decide, ?_⟩
  have h := batch_input_pointer_always_advances (fun _ => none) "in.pptx"
    [ ("a.svg", true), ("b.svg", false) ] 1 "out.pptx" "tmp/b" false (by decide)
  simpa using h

/-- C2 counterexample: a three-item batch whose middle item fails.  Step 1
succeeds and places a.svg; step 3 reads step 2's never-written scratch path,
recreates a fresh document, and the final output holds only c.svg -- the
step-1 success is discarded, contradicting the claim that the final output
preserves the state produced by the last successful step. -/
theorem batch_failure_discards_earlier_success :
    (insert_svg_batch fs0 "in.pptx" [ ("a.svg", true), ("b.svg", false), ("c.svg", true) ] 1
        "out.pptx" "tmp/b" false).2.map StepOutcome.ok = [ true, false, true ] ∧
    (insert_svg_batch fs0 "in.pptx" [ ("a.svg", true), ("b.svg", false), ("c.svg", true) ] 1
        "out.pptx" "tmp/b" false).1 "out.pptx" = some ⟨[ [], [], [ "c.svg" ] ]⟩ ∧
    (Doc.slides ⟨[ [], [], [ "c.svg" ] ]⟩).all (fun s => !s.contains "a.svg") = true := by
  refine ⟨?_, ?_, ?_⟩ <;> decide

/-- C9 counterexample: for input document /docs/deck.pptx with no output
requested, the default persist location is the timestamped file in the
standard output directory -- not the input path as the claim states. -/
theorem default_output_path_not_input :
    default_output_path "/srv" "20260101_000000" "/docs/deck.pptx" =
      "/srv/output/deck_svg_20260101_000000.pptx" ∧
    default_output_path "/srv" "20260101_000000" "/docs/deck.pptx" ≠ "/docs/deck.pptx" := by
  refine ⟨?_, ?_⟩ <;> decide

/-- C9 (corrected): the single-item operation persists the resulting
document at the requested output location when one is given; when none is
given it persists at the default location, which is the cleaned-stem,
svg-tagged, timestamped file in the standard output directory rather than
the input path. -/
theorem single_insert_persists_at_output (fs : FS) (baseDir ts pptxPath : String)
    (svg : String × Bool) (slideNumber : Nat) (outputPath : String) (create : Bool)
    (h : svg.2 = true ∨ create = true) :
    (insert_svg_single fs baseDir ts pptxPath svg slideNumber outputPath create).1 = true ∧
    (insert_svg_single fs baseDir ts pptxPath svg slideNumber outputPath create).2.1
        (insert_svg_single fs baseDir ts pptxPath svg slideNumber outputPath create).2.2 =
      some (placeSvg ((fs pptxPath).getD ⟨List.replicate slideNumber blankSlide⟩)
        svg.1 slideNumber) ∧
    (outputPath ≠ "" →
      (insert_svg_single fs baseDir ts pptxPath svg slideNumber outputPath create).2.2 =
        outputPath) ∧
    (outputPath = "" →
      (insert_svg_single fs baseDir ts pptxPath svg slideNumber outputPath create).2.2 =
        default_output_path baseDir ts pptxPath) := by
  have hcond : (!svg.2 && !create) = false := by
    rcases h with h | h <;> simp [h]
  refine ⟨?_, ?_, ?_, ?_⟩
  · simp [insert_svg_single, process_single_svg, hcond, insert_svg_to_pptx]
  · simp [insert_svg_single, process_single_svg, hcond, insert_svg_to_pptx, fsSet]
  · intro ho
    simp [insert_svg_single, ho]
  · intro ho
    simp [insert_svg_single, ho]

/-- Witness for C9's amended theorem at a concrete input with no output
path requested. -/
theorem single_insert_persists_at_output_witness :
    ((("g.svg", true) : String × Bool).2 = true ∨ true = true) ∧
    (insert_svg_single (fun _ => none) "/srv" "20260101_000000" "/docs/deck.pptx"
        ("g.svg", true) 1 "" true).2.1
        (insert_svg_single (fun _ => none) "/srv" "20260101_000000" "/docs/deck.pptx"
          ("g.svg", true) 1 "" true).2.2 =
      some (placeSvg (((fun _ => none : FS) "/docs/deck.pptx").getD
        ⟨List.replicate 1 blankSlide⟩) ("g.svg", true).1 1) :=
  ⟨Or.inl rfl,
    (single_insert_persists_at_output (fun _ => none) "/srv" "20260101_000000"
      "/docs/deck.pptx" ("g.svg", true) 1 "" true (Or.inl rfl)).2.1⟩

end SvgPptx
